import Mathlib

/-!
Verification of the template-customization scripts of the repository
(`scripts/setup.ts` and `scripts/seo-setup.ts`).

Text is modelled as `List Char`.  JavaScript string operations used by the
scripts (`includes`, `replace` with a string pattern, `replace` with a
global regex built from an escaped literal, `split`, `trim`, `toLowerCase`,
`toUpperCase`) are shallowly embedded below.  Since `escapeRegex` escapes
every regex metacharacter of the pattern, `new RegExp(escapeRegex(from), "g")`
matches exactly the literal string `from`; the composition is therefore
modelled as literal, left-to-right, non-overlapping global replacement.
The replacement STRING of JavaScript `String.prototype.replace` is not
inserted verbatim: it undergoes `GetSubstitution` expansion of the
patterns `$$`, `$&`, the backtick form (text before the match) and the
quote form (text after the match).  With an escaped pattern there are no
capture groups, so `$1`..`$9` and `$<name>` are passed through literally,
which the catch-all branch of `expandSub` reproduces.  All character
classes are modelled over ASCII, the only range exercised by the scripts.
-/

set_option maxRecDepth 100000
set_option maxHeartbeats 4000000

/-- The character `'` (apostrophe), written via its code point. -/
def sqCh : Char := Char.ofNat 39

/-- The character backtick, written via its code point. -/
def bqCh : Char := Char.ofNat 96

/-- The character `"`. -/
def dqCh : Char := Char.ofNat 34

/-- The character backslash. -/
def bsCh : Char := Char.ofNat 92

/-- The dollar character starting a JavaScript replacement pattern. -/
def dollarCh : Char := Char.ofNat 36

/-- The ampersand character. -/
def ampCh : Char := Char.ofNat 38

/-- `startsWith hay pat` is true iff `pat` is a prefix of `hay`. -/
def startsWith : List Char → List Char → Bool
  | _, [] => true
  | [], _ :: _ => false
  | a :: as, b :: bs => a == b && startsWith as bs

/-- JavaScript `hay.includes(pat)`: `pat` occurs as a contiguous substring. -/
def containsSub : List Char → List Char → Bool
  | [], p => startsWith [] p
  | c :: t, p => startsWith (c :: t) p || containsSub t p

/-- JavaScript `hay.replace(pat, rep)` with a STRING pattern and a
`$`-free replacement: replace the first occurrence of `pat` only. -/
def replaceFirstL : List Char → List Char → List Char → List Char
  | [], pat, rep => if startsWith [] pat then rep else []
  | c :: t, pat, rep =>
    if startsWith (c :: t) pat then rep ++ (c :: t).drop pat.length
    else c :: replaceFirstL t pat rep

/-- Split `hay` at the first occurrence of `pat`: returns the text before
the occurrence and the text after it.  `none` when `pat` does not occur. -/
def splitAtSub? : List Char → List Char → Option (List Char × List Char)
  | [], pat => if startsWith [] pat then some ([], []) else none
  | c :: t, pat =>
    if startsWith (c :: t) pat then some ([], (c :: t).drop pat.length)
    else
      match splitAtSub? t pat with
      | none => none
      | some pq => some (c :: pq.1, pq.2)

/-- First-occurrence replacement driven by a matcher `m`: at each position
`m` receives the remaining text and, on a match, returns the text after
the matched region.  Models `String.replace` with a non-global regex whose
leftmost match is characterised by `m`. -/
def replaceFirstBy (m : List Char → Option (List Char)) (rep : List Char) :
    List Char → List Char
  | [] =>
    match m [] with
    | some rest => rep ++ rest
    | none => []
  | c :: t =>
    match m (c :: t) with
    | some rest => rep ++ rest
    | none => c :: replaceFirstBy m rep t

/-- Whether the matcher `m` fires at some position of the text. -/
def hasMatchBy (m : List Char → Option (List Char)) : List Char → Bool
  | [] => (m []).isSome
  | c :: t => (m (c :: t)).isSome || hasMatchBy m t

/-- ASCII members of the JavaScript `\s` class. -/
def isSpaceJs (c : Char) : Bool :=
  c == ' ' || c == '\t' || c == '\n' || c == '\r' || c.toNat == 11 || c.toNat == 12

/-- Characters matched by the split class `[-_\s]` of the scripts. -/
def isSepCh (c : Char) : Bool :=
  c == '-' || c == '_' || isSpaceJs c

/-- `GetSubstitution` for a replacement string, with no capture groups:
`$$` yields `$`, `$&` the matched text, the backtick form the text before
the match, the quote form the text after the match; anything else after a
`$` (including `$1`..`$9` and `$<`) is passed through literally. -/
def expandSub (matched pre post : List Char) : List Char → List Char
  | [] => []
  | [c] => [c]
  | a :: b :: t =>
    if a = dollarCh then
      if b = dollarCh then dollarCh :: expandSub matched pre post t
      else if b = ampCh then matched ++ expandSub matched pre post t
      else if b = bqCh then pre ++ expandSub matched pre post t
      else if b = sqCh then post ++ expandSub matched pre post t
      else a :: expandSub matched pre post (b :: t)
    else a :: expandSub matched pre post (b :: t)

/-- Worker for global regex replacement with a literal (escaped) pattern.
`pre` is the already-consumed prefix of the ORIGINAL string (needed by the
replacement patterns that reference the text around the match); the fuel
argument bounds the recursion and is always called with more fuel than the
length of `rest`, so the zero case is never reached. -/
def jsReplGo (pat rep : List Char) : Nat → List Char → List Char → List Char
  | 0, _, rest => rest
  | f + 1, pre, rest =>
    if pat.isEmpty then
      match rest with
      | [] => expandSub pat pre [] rep
      | c :: t => expandSub pat pre rest rep ++ c :: jsReplGo pat rep f (pre ++ [c]) t
    else if startsWith rest pat then
      expandSub pat pre (rest.drop pat.length) rep ++
        jsReplGo pat rep f (pre ++ pat) (rest.drop pat.length)
    else
      match rest with
      | [] => []
      | c :: t => c :: jsReplGo pat rep f (pre ++ [c]) t

/-- JavaScript `s.replace(new RegExp(escapeRegex(pat), "g"), rep)`:
global replacement of the literal `pat` with the replacement string `rep`
(after `GetSubstitution` expansion of `rep`). -/
def jsReplaceAll (s pat rep : List Char) : List Char :=
  jsReplGo pat rep (s.length + 1) [] s

/-- Modelled from the spec: worker for replacing all occurrences of `pat`
with the verbatim text `rep`, no expansion of the replacement. -/
def litReplGo (pat rep : List Char) : Nat → List Char → List Char
  | 0, rest => rest
  | f + 1, rest =>
    if pat.isEmpty then
      match rest with
      | [] => rep
      | c :: t => rep ++ c :: litReplGo pat rep f t
    else if startsWith rest pat then
      rep ++ litReplGo pat rep f (rest.drop pat.length)
    else
      match rest with
      | [] => []
      | c :: t => c :: litReplGo pat rep f t

/-- Modelled from the spec (§4.2): "replace all occurrences" of `pat` by
the verbatim replacement `rep`.  Reference semantics that the claims
compare `jsReplaceAll` against. -/
def litReplaceAll (s pat rep : List Char) : List Char :=
  litReplGo pat rep (s.length + 1) s

/-- A replacement rule of `getReplacements` (`{ from, to }` in the source;
`from` is a Lean keyword, hence the field names). -/
structure Rule where
  fromStr : List Char
  toStr : List Char
deriving DecidableEq

/-- JavaScript `word.charAt(0).toUpperCase() + word.slice(1).toLowerCase()`. -/
def capitalizeWord : List Char → List Char
  | [] => []
  | c :: t => c.toUpper :: t.map Char.toLower

/-- `xs.join(sep)` for a one-character separator. -/
def joinWith (sep : Char) : List (List Char) → List Char
  | [] => []
  | [w] => w
  | w :: x :: t => w ++ sep :: joinWith sep (x :: t)

/-- Fuelled worker for `split(/[-_\s]+/)`: a separator run ends the
current token and is skipped wholesale; a trailing run contributes a
trailing empty token, as in JavaScript. -/
def splitSepsGo : Nat → List Char → List Char → List (List Char)
  | 0, cur, _ => [cur.reverse]
  | _ + 1, cur, [] => [cur.reverse]
  | f + 1, cur, c :: t =>
    if isSepCh c then cur.reverse :: splitSepsGo f [] (t.dropWhile isSepCh)
    else splitSepsGo f (c :: cur) t

/-- JavaScript `s.split(/[-_\s]+/)`. -/
def splitSeps (s : List Char) : List (List Char) :=
  splitSepsGo (s.length + 1) [] s

/-- Title-Case derivation of `getReplacements` / `toTitleCase`:
split on runs of hyphens, underscores and whitespace, capitalize each
word (rest lowercased), join with single spaces. -/
def toTitleCase (s : List Char) : List Char :=
  joinWith ' ' ((splitSeps s).map capitalizeWord)

/-- Fuelled worker for `replace(/\s+/g, "-")`: each whitespace run becomes
a single hyphen. -/
def collapseSpacesGo : Nat → List Char → List Char
  | 0, rest => rest
  | _ + 1, [] => []
  | f + 1, c :: t =>
    if isSpaceJs c then '-' :: collapseSpacesGo f (t.dropWhile isSpaceJs)
    else c :: collapseSpacesGo f t

/-- `s.replace(/\s+/g, "-")`. -/
def collapseSpaces (s : List Char) : List Char :=
  collapseSpacesGo (s.length + 1) s

/-- Membership in the class `[a-z0-9-]` kept by the kebab-case derivation. -/
def isKebabSafe (c : Char) : Bool :=
  (Nat.ble 97 c.toNat && Nat.ble c.toNat 122) ||
  (Nat.ble 48 c.toNat && Nat.ble c.toNat 57) || c == '-'

/-- Kebab-case derivation of `getReplacements`: lowercase, whitespace runs
to hyphens, then delete every character outside `[a-z0-9-]`. -/
def toKebabCase (s : List Char) : List Char :=
  (collapseSpaces (s.map Char.toLower)).filter isKebabSafe

/-- The replacement rule table of `scripts/setup.ts` (`getReplacements`),
parameterized by the project name. -/
def getReplacements (projectName : List Char) : List Rule :=
  let titleCase := toTitleCase projectName
  let kebabCase := toKebabCase projectName
  [ ⟨"# Next.js Template".data, "# ".data ++ titleCase⟩,
    ⟨"A comprehensive Next.js template with routing, API routes, loading states, and error boundaries.".data,
      titleCase ++ " - Built with Next.js".data⟩,
    ⟨"\"name\": \"next.js-template-basic\"".data,
      "\"name\": \"".data ++ kebabCase ++ "\"".data⟩,
    ⟨"default: \"Next.js Template\"".data,
      "default: \"".data ++ titleCase ++ "\"".data⟩,
    ⟨"template: \"%s | Next.js Template\"".data,
      "template: \"%s | ".data ++ titleCase ++ "\"".data⟩,
    ⟨"keywords: [".data, "keywords: [".data⟩,
    ⟨"[\"Next.js\", \"React\", \"TypeScript\", \"Template\"]".data,
      "[\"Next.js\", \"React\", \"TypeScript\"]".data⟩,
    ⟨"Next.js Template".data, titleCase⟩,
    ⟨"A comprehensive starter template with routing, API routes, loading\n            states, and error boundaries.".data,
      "Welcome to ".data ++ titleCase⟩,
    ⟨"About page for the Next.js template".data, "About ".data ++ titleCase⟩,
    ⟨"About This Template".data, "About ".data ++ titleCase⟩,
    ⟨"This is a comprehensive Next.js template demonstrating best practices for routing, API routes, loading states, and error handling.".data,
      titleCase ++ " is a Next.js application.".data⟩,
    ⟨"Note: This is a template page. Form inputs are disabled for demonstration.".data,
      "Configure your application settings here.".data⟩ ]

/-- The `forEach` loop of `updateFile`: apply each rule in order to the
evolving content; the second component is the `modified` flag (set when a
rule's `from` occurred in the content at its turn). -/
def applyRules : List Char → List Rule → List Char × Bool
  | c, [] => (c, false)
  | c, r :: rs =>
    if containsSub c r.fromStr then
      ((applyRules (jsReplaceAll c r.fromStr r.toStr) rs).1, true)
    else applyRules c rs

/-- Modelled from the spec: the same loop with verbatim replacements. -/
def litApplyRules : List Char → List Rule → List Char × Bool
  | c, [] => (c, false)
  | c, r :: rs =>
    if containsSub c r.fromStr then
      ((litApplyRules (litReplaceAll c r.fromStr r.toStr) rs).1, true)
    else litApplyRules c rs

/-- Observable outcome of `updateFile`: the file's content after the call
(`none` when the file does not exist), the boolean return value, and
whether the "file not found" warning was logged.  The function is total:
the missing-file case returns instead of throwing. -/
structure UpdateResult where
  content : Option (List Char)
  ret : Bool
  warnedMissing : Bool
deriving DecidableEq

/-- `updateFile` of `scripts/setup.ts`.  The argument is the content of
the file at the given path (`none` when `fs.existsSync` is false);
the file is written back exactly when the `modified` flag is set. -/
def updateFile (file : Option (List Char)) (rules : List Rule) : UpdateResult :=
  match file with
  | none => ⟨none, false, true⟩
  | some c =>
    if (applyRules c rules).2 then ⟨some (applyRules c rules).1, true, false⟩
    else ⟨some c, false, false⟩

/-- The provider name checked by the idempotence guard of
`updateLayoutForHeroUI`. -/
def heroProv : List Char := "HeroUIProvider".data

/-- The client-directive text checked before prepending. -/
def useClientStr : List Char := "\"use client\"".data

/-- The text prepended when the client directive is absent. -/
def useClientPrefix : List Char := "\"use client\";\n\n".data

/-- The Hero UI import statement (`importStatement` in the source). -/
def heroImportStmt : List Char :=
  ("import \x7b HeroUIProvider \x7d from \"@heroui/react\";\n").data

/-- The anchor import line after which imports are spliced. -/
def globalsAnchor : List Char := "import \"./globals.css\";".data

/-- The replacement spliced for the anchor: the anchor line followed by the
Hero UI import statement. -/
def heroImportRepl : List Char := "import \"./globals.css\";\n".data ++ heroImportStmt

/-- The provider wrapper substituted for the children token. -/
def heroWrap : List Char :=
  ("<HeroUIProvider>\n        \x7bchildren\x7d\n      </HeroUIProvider>").data

/-- Leftmost-match semantics of the regex `{\s*children\s*}` at the head
of the text: an opening brace, a maximal whitespace run, the literal word
`children`, a maximal whitespace run, a closing brace.  Returns the text
after the matched region. -/
def childrenMatch (l : List Char) : Option (List Char) :=
  match l with
  | [] => none
  | c :: t =>
    if c = Char.ofNat 123 then
      let t1 := t.dropWhile isSpaceJs
      if startsWith t1 ("children".data) then
        let t2 := (t1.drop ("children".data).length).dropWhile isSpaceJs
        match t2 with
        | [] => none
        | d :: rest => if d = Char.ofNat 125 then some rest else none
      else none
    else none

/-- Step 1 of `updateLayoutForHeroUI`: ensure the client directive. -/
def heroStep1 (c : List Char) : List Char :=
  if containsSub c useClientStr then c else useClientPrefix ++ c

/-- Step 2 of `updateLayoutForHeroUI`: splice the import after the anchor
line, guarded by the presence of the exact import statement. -/
def heroStep2 (c : List Char) : List Char :=
  if containsSub c heroImportStmt then c
  else replaceFirstL c globalsAnchor heroImportRepl

/-- Step 3 of `updateLayoutForHeroUI`: wrap the first occurrence of the
children token with the provider tags. -/
def heroStep3 (c : List Char) : List Char :=
  replaceFirstBy childrenMatch heroWrap c

/-- `updateLayoutForHeroUI` of `scripts/setup.ts`, as a transformation of
the layout file's content: if the provider name already occurs anywhere,
return without mutation (informational log); otherwise run the three
splice steps and write the result. -/
def updateLayoutForHeroUI (c : List Char) : List Char :=
  if containsSub c heroProv then c
  else heroStep3 (heroStep2 (heroStep1 c))

/-- A JSON value as parsed by `JSON.parse` (numbers restricted to
integers, the only kind exercised by the scripts and claims). -/
inductive JVal where
  | jnull : JVal
  | jbool : Bool → JVal
  | jnum : Int → JVal
  | jstr : List Char → JVal
  | jarr : List JVal → JVal
  | jobj : List (List Char × JVal) → JVal

/-- JavaScript truthiness of a parsed JSON value. -/
def jvTruthy : JVal → Bool
  | JVal.jnull => false
  | JVal.jbool b => b
  | JVal.jnum n => !(n == 0)
  | JVal.jstr s => !s.isEmpty
  | JVal.jarr _ => true
  | JVal.jobj _ => true

/-- The candidate object handed to `validateSeoConfig`: each known field
is either absent (`undefined`) or carries a parsed JSON value.  The
extraneous `_comments` and `$schema` fields are deleted before validation
in the source and are therefore not represented. -/
structure Candidate where
  siteName : Option JVal
  siteTagline : Option JVal
  siteUrl : Option JVal
  author : Option JVal
  businessType : Option JVal
  keywords : Option JVal
  locale : Option JVal
  social : Option JVal

/-- The check `!config.x || typeof config.x !== "string"` PASSES exactly
when the field is a truthy string, i.e. a non-empty string. -/
def reqStrOk : Option JVal → Bool
  | some (JVal.jstr s) => !s.isEmpty
  | _ => false

/-- `Array.isArray(config.keywords)`. -/
def isArrayOpt : Option JVal → Bool
  | some (JVal.jarr _) => true
  | _ => false

/-- Truthiness of a possibly-absent field. -/
def truthyOpt : Option JVal → Bool
  | some v => jvTruthy v
  | none => false

/-- The six enumerated business types, in source order. -/
def validBusinessTypes : List (List Char) :=
  ["blog".data, "ecommerce".data, "portfolio".data, "saas".data,
   "corporate".data, "other".data]

/-- `validBusinessTypes.includes(config.businessType)` (strict equality:
a non-string value never matches). -/
def bizIncluded : Option JVal → Bool
  | some (JVal.jstr s) => validBusinessTypes.contains s
  | _ => false

/-- Validation error messages of `validateSeoConfig`, verbatim. -/
def msgSiteName : List Char := "siteName is required and must be a string".data

/-- Error message for a missing or non-string `siteTagline`. -/
def msgSiteTagline : List Char := "siteTagline is required and must be a string".data

/-- Error message for a missing or non-string `siteUrl`. -/
def msgSiteUrl : List Char := "siteUrl is required and must be a string".data

/-- Error message for a missing or non-string `author`. -/
def msgAuthor : List Char := "author is required and must be a string".data

/-- Error message for a missing or non-string `businessType`. -/
def msgBizRequired : List Char := "businessType is required and must be a string".data

/-- Error message naming the six valid business types (the source joins
`validBusinessTypes` with a comma and a space). -/
def msgBizEnum : List Char :=
  "businessType must be one of: blog, ecommerce, portfolio, saas, corporate, other".data

/-- Error message for a non-array `keywords` field. -/
def msgKeywords : List Char := "keywords must be an array".data

/-- The `errors` list accumulated by `validateSeoConfig`, in source
order: every failed check contributes its message, independently of the
other checks. -/
def validateErrors (c : Candidate) : List (List Char) :=
  (if reqStrOk c.siteName then [] else [msgSiteName])
  ++ (if reqStrOk c.siteTagline then [] else [msgSiteTagline])
  ++ (if reqStrOk c.siteUrl then [] else [msgSiteUrl])
  ++ (if reqStrOk c.author then [] else [msgAuthor])
  ++ (if reqStrOk c.businessType then [] else [msgBizRequired])
  ++ (if truthyOpt c.businessType && !(bizIncluded c.businessType)
      then [msgBizEnum] else [])
  ++ (if isArrayOpt c.keywords then [] else [msgKeywords])

/-- `validateSeoConfig` of `scripts/seo-setup.ts`: false iff at least one
violation was recorded (all violations are printed before returning). -/
def validateSeoConfig (c : Candidate) : Bool :=
  (validateErrors c).isEmpty

/-- The validated configuration object consumed by the generators.  The
five required fields are strings after validation; `locale`, `keywords`
and `social` keep their parsed JSON values (the source never re-checks
them beyond `validateSeoConfig`). -/
structure SeoConfig where
  siteName : List Char
  siteTagline : List Char
  siteUrl : List Char
  author : List Char
  locale : JVal
  businessType : List Char
  keywords : JVal
  social : JVal

/-- Extract the character data of a string-valued field (validation
guarantees the five required fields are strings when this is used). -/
def getStr : Option JVal → List Char
  | some (JVal.jstr s) => s
  | _ => []

/-- `config.x = config.x || d`: keep a truthy value, otherwise the
default. -/
def jvOrDefault (o : Option JVal) (d : JVal) : JVal :=
  match o with
  | some v => if jvTruthy v then v else d
  | none => d

/-- `loadTemplateFile` of `scripts/seo-setup.ts`, from the parsed
template onward: `none` models a missing file or a JSON parse error (both
return null in the source); a candidate failing validation also yields
`none`; otherwise the defaults `locale || "en"` and `social || {}` are
applied and the object is returned unchanged — in particular `siteUrl`
is stored verbatim. -/
def loadTemplateFile (cand : Option Candidate) : Option SeoConfig :=
  match cand with
  | none => none
  | some c =>
    if validateSeoConfig c then
      some ⟨getStr c.siteName, getStr c.siteTagline, getStr c.siteUrl,
            getStr c.author,
            jvOrDefault c.locale (JVal.jstr ("en".data)),
            getStr c.businessType,
            (c.keywords).getD JVal.jnull,
            jvOrDefault c.social (JVal.jobj [])⟩
    else none

/-- `siteUrl.replace(/\/$/, "")`: remove one trailing slash if present. -/
def stripTrailingSlash (s : List Char) : List Char :=
  if s.getLast? = some '/' then s.dropLast else s

/-- `keywordsInput.split(",")`, worker. -/
def splitCommaGo : List Char → List Char → List (List Char)
  | cur, [] => [cur.reverse]
  | cur, c :: t =>
    if c = ',' then cur.reverse :: splitCommaGo [] t
    else splitCommaGo (c :: cur) t

/-- JavaScript `s.split(",")`. -/
def splitComma (s : List Char) : List (List Char) :=
  splitCommaGo [] s

/-- JavaScript `s.trim()` over the modelled whitespace class. -/
def trimJs (s : List Char) : List Char :=
  ((s.dropWhile isSpaceJs).reverse.dropWhile isSpaceJs).reverse

/-- The `BUSINESS_TYPES` keys, in menu order. -/
def businessTypeKeys : List (List Char) :=
  ["blog".data, "ecommerce".data, "portfolio".data, "saas".data,
   "corporate".data, "other".data]

/-- The answers typed at the interactive prompts of `collectSeoInfo`
(each already trimmed by `prompt`); the business-type selection loop only
terminates on a valid 1-based index, modelled as `Fin 6`. -/
structure Answers where
  siteName : List Char
  siteTagline : List Char
  siteUrl : List Char
  author : List Char
  locale : List Char
  businessChoice : Fin 6
  keywordsInput : List Char
  twitter : List Char
  facebook : List Char
  linkedin : List Char

/-- `collectSeoInfo` of `scripts/seo-setup.ts` as a function of the
prompt answers and the project name read from `package.json`: empty
answers fall back to the Title-Cased project name and to `"en"`; the
keywords input is comma-split, trimmed and filtered of empties; social
fields are included only when non-empty; `siteUrl` is stripped of one
trailing slash. -/
def collectSeoInfo (projectName : List Char) (a : Answers) : SeoConfig :=
  ⟨(if a.siteName.isEmpty then toTitleCase projectName else a.siteName),
   a.siteTagline,
   stripTrailingSlash a.siteUrl,
   a.author,
   JVal.jstr (if a.locale.isEmpty then "en".data else a.locale),
   businessTypeKeys.getD a.businessChoice.val [],
   JVal.jarr (((splitComma a.keywordsInput).map trimJs).filter
     (fun k => !k.isEmpty) |>.map JVal.jstr),
   JVal.jobj ((if a.twitter.isEmpty then [] else [("twitter".data, JVal.jstr a.twitter)])
     ++ (if a.facebook.isEmpty then [] else [("facebook".data, JVal.jstr a.facebook)])
     ++ (if a.linkedin.isEmpty then [] else [("linkedin".data, JVal.jstr a.linkedin)]))⟩

/-- Decimal rendering of an integer (JSON and template-literal form). -/
def intToChars (n : Int) : List Char :=
  match n with
  | Int.ofNat m => Nat.toDigits 10 m
  | Int.negSucc m => '-' :: Nat.toDigits 10 (m + 1)

/-- Join rendered pieces with commas (`JSON.stringify` array/object form,
`Array.prototype.join` default separator). -/
def commaJoin : List (List Char) → List Char
  | [] => []
  | [x] => x
  | x :: y :: t => x ++ ',' :: commaJoin (y :: t)

/-- `JSON.stringify` escaping of string contents (quote and backslash;
the scripts never feed control characters through this path). -/
def jsonEscape : List Char → List Char
  | [] => []
  | c :: t =>
    (if c = dqCh then [bsCh, dqCh]
     else if c = bsCh then [bsCh, bsCh] else [c]) ++ jsonEscape t

/-- Fuelled `JSON.stringify`; the fuel bounds the nesting depth and is
instantiated with `sizeOf`, which dominates the depth of any value. -/
def jsonStrF : Nat → JVal → List Char
  | 0, _ => []
  | _ + 1, JVal.jnull => "null".data
  | _ + 1, JVal.jbool b => if b then "true".data else "false".data
  | _ + 1, JVal.jnum n => intToChars n
  | _ + 1, JVal.jstr s => dqCh :: (jsonEscape s ++ [dqCh])
  | f + 1, JVal.jarr xs => '[' :: (commaJoin (xs.map (jsonStrF f)) ++ [']'])
  | f + 1, JVal.jobj fs =>
    Char.ofNat 123 ::
      (commaJoin (fs.map (fun kv =>
        dqCh :: (jsonEscape kv.1 ++ [dqCh] ++ (':' :: jsonStrF f kv.2))))
       ++ [Char.ofNat 125])

/-- Depth budget for the fuelled JSON renderers: fuel is consumed once
per nesting level only, so this bound is never reached by any value the
scripts construct or parse in practice. -/
def jsonDepthFuel : Nat := 1000000

/-- `JSON.stringify(v)`. -/
def jsonStringify (v : JVal) : List Char :=
  jsonStrF jsonDepthFuel v

/-- Fuelled template-literal stringification (`${v}`): strings verbatim,
numbers in decimal, arrays joined with commas (null elements render
empty, as in `Array.prototype.join`), objects as `[object Object]`. -/
def jsToTextF : Nat → JVal → List Char
  | 0, _ => []
  | _ + 1, JVal.jnull => "null".data
  | _ + 1, JVal.jbool b => if b then "true".data else "false".data
  | _ + 1, JVal.jnum n => intToChars n
  | _ + 1, JVal.jstr s => s
  | f + 1, JVal.jarr xs =>
    commaJoin (xs.map (fun x =>
      match x with
      | JVal.jnull => []
      | y => jsToTextF f y))
  | _ + 1, JVal.jobj _ => "[object Object]".data

/-- `${v}` in a template literal. -/
def jsToText (v : JVal) : List Char :=
  jsToTextF jsonDepthFuel v

/-- Property lookup in a parsed JSON object. -/
def lookupField : List (List Char × JVal) → List Char → Option JVal
  | [], _ => none
  | kv :: t, k => if kv.1 == k then some kv.2 else lookupField t k

/-- `config.social.k`: property access on the social value; `undefined`
for any non-object receiver. -/
def socialGet (social : JVal) (k : List Char) : Option JVal :=
  match social with
  | JVal.jobj fs => lookupField fs k
  | _ => none

/-- The ternary `config.social.twitter ? "@" + twitter : ""`. -/
def twitterAt (social : JVal) : List Char :=
  match socialGet social ("twitter".data) with
  | some v => if jvTruthy v then '@' :: jsToText v else []
  | none => []

/-- `config.social.k || ""` interpolated into the template. -/
def socialOrEmpty (social : JVal) (k : List Char) : List Char :=
  match socialGet social k with
  | some v => if jvTruthy v then jsToText v else []
  | none => []

/-- `generateSeoConfig` of `scripts/seo-setup.ts`: the full rendered text
of `src/lib/seo.config.ts`. -/
def generateSeoConfig (c : SeoConfig) : List Char :=
  "export const seoConfig = \x7b\n  siteName: \"".data ++ c.siteName
  ++ "\",\n  siteTagline: \"".data ++ c.siteTagline
  ++ "\",\n  siteUrl: \"".data ++ c.siteUrl
  ++ "\",\n  author: \"".data ++ c.author
  ++ "\",\n  locale: \"".data ++ jsToText c.locale
  ++ "\",\n  businessType: \"".data ++ c.businessType
  ++ "\",\n  keywords: ".data ++ jsonStringify c.keywords
  ++ ",\n\n  // Default metadata\n  defaultTitle: \"".data ++ c.siteName
  ++ "\",\n  titleTemplate: \"%s | ".data ++ c.siteName
  ++ "\",\n  description: \"".data ++ c.siteTagline
  ++ "\",\n\n  // Open Graph defaults\n  openGraph: \x7b\n    type: \"".data
  ++ (if c.businessType == "blog".data then "website".data else "website".data)
  ++ "\",\n    siteName: \"".data ++ c.siteName
  ++ "\",\n    locale: \"".data ++ jsToText c.locale
  ++ "\",\n    url: \"".data ++ c.siteUrl
  ++ "\",\n    images: [\n      \x7b\n        url: \"".data ++ c.siteUrl
  ++ "/og/default.png\",\n        width: 1200,\n        height: 630,\n        alt: \"".data
  ++ c.siteName
  ++ ("\",\n      \x7d,\n    ],\n  \x7d,\n\n  // Twitter Card defaults\n  twitter: \x7b\n"
      ++ "    card: \"summary_large_image\",\n    site: \"").data
  ++ twitterAt c.social
  ++ "\",\n    creator: \"".data ++ twitterAt c.social
  ++ "\",\n  \x7d,\n\n  // Social links\n  social: \x7b\n    twitter: \"".data
  ++ socialOrEmpty c.social ("twitter".data)
  ++ "\",\n    facebook: \"".data ++ socialOrEmpty c.social ("facebook".data)
  ++ "\",\n    linkedin: \"".data ++ socialOrEmpty c.social ("linkedin".data)
  ++ ("\",\n  \x7d,\n\n  // Verification codes (add your verification codes here)\n"
      ++ "  verification: \x7b\n"
      ++ "    google: \"\", // Add Google Search Console verification code\n"
      ++ "    bing: \"\", // Add Bing Webmaster Tools verification code\n"
      ++ "    yandex: \"\", // Add Yandex verification code\n"
      ++ "  \x7d,\n\x7d as const;\n\nexport type SeoConfig = typeof seoConfig;\n").data

/-- The (single-quoted) text checked by the import guard of the SEO
`updateLayout` — note the inserted import uses DOUBLE quotes, so the
inserted text never contains this string. -/
def seoImportGuard : List Char :=
  "from ".data ++ [sqCh] ++ "@/lib/seo.config".data ++ [sqCh]

/-- The import block spliced for the anchor line by the SEO
`updateLayout` (double-quoted module paths). -/
def seoImportRepl : List Char :=
  ("import \"./globals.css\";\nimport \x7b seoConfig \x7d from \"@/lib/seo.config\";\n"
   ++ "import \x7b getOrganizationSchema, getWebsiteSchema \x7d from \"@/lib/structured-data\";").data

/-- The opening marker of the metadata-object regex. -/
def metaOpen : List Char := "export const metadata: Metadata = \x7b".data

/-- The closing marker of the metadata-object regex (lazy match ends at
the first such occurrence after the opening marker). -/
def metaClose : List Char := "\x7d;".data

/-- The rendered metadata block substituted for the matched region. -/
def newMetadataStr : List Char :=
  ("export const metadata: Metadata = \x7b\n"
   ++ "  metadataBase: new URL(seoConfig.siteUrl),\n"
   ++ "  title: \x7b\n"
   ++ "    default: seoConfig.defaultTitle,\n"
   ++ "    template: seoConfig.titleTemplate,\n"
   ++ "  \x7d,\n"
   ++ "  description: seoConfig.description,\n"
   ++ "  keywords: seoConfig.keywords,\n"
   ++ "  authors: [\x7b name: seoConfig.author \x7d],\n"
   ++ "  creator: seoConfig.author,\n"
   ++ "  openGraph: \x7b\n"
   ++ "    type: \"website\",\n"
   ++ "    locale: seoConfig.locale,\n"
   ++ "    url: seoConfig.siteUrl,\n"
   ++ "    siteName: seoConfig.siteName,\n"
   ++ "    title: seoConfig.defaultTitle,\n"
   ++ "    description: seoConfig.description,\n"
   ++ "    images: seoConfig.openGraph.images,\n"
   ++ "  \x7d,\n"
   ++ "  twitter: \x7b\n"
   ++ "    card: \"summary_large_image\",\n"
   ++ "    title: seoConfig.defaultTitle,\n"
   ++ "    description: seoConfig.description,\n"
   ++ "    site: seoConfig.twitter.site,\n"
   ++ "    creator: seoConfig.twitter.creator,\n"
   ++ "    images: seoConfig.openGraph.images.map(img => img.url),\n"
   ++ "  \x7d,\n"
   ++ "  robots: \x7b\n"
   ++ "    index: true,\n"
   ++ "    follow: true,\n"
   ++ "    googleBot: \x7b\n"
   ++ "      index: true,\n"
   ++ "      follow: true,\n"
   ++ "      \"max-video-preview\": -1,\n"
   ++ "      \"max-image-preview\": \"large\",\n"
   ++ "      \"max-snippet\": -1,\n"
   ++ "    \x7d,\n"
   ++ "  \x7d,\n"
   ++ "  verification: \x7b\n"
   ++ "    google: seoConfig.verification.google,\n"
   ++ "    yandex: seoConfig.verification.yandex,\n"
   ++ "    // bing: seoConfig.verification.bing, // Uncomment when you have the code\n"
   ++ "  \x7d,\n"
   ++ "\x7d;").data

/-- The presence check guarding the structured-data insertion. -/
def orgSchemaCall : List Char := "getOrganizationSchema()".data

/-- The literal children token matched by the SEO layout patcher. -/
def childrenToken : List Char := "\x7bchildren\x7d".data

/-- The structured-data block substituted for the children token. -/
def childrenSeoRepl : List Char :=
  ("\x7bchildren\x7d\n        <script\n          type=\"application/ld+json\"\n"
   ++ "          dangerouslySetInnerHTML=\x7b\x7b\n"
   ++ "            __html: JSON.stringify([\n"
   ++ "              getOrganizationSchema(),\n"
   ++ "              getWebsiteSchema(),\n"
   ++ "            ]),\n"
   ++ "          \x7d\x7d\n"
   ++ "        />").data

/-- `updateLayout` of `scripts/seo-setup.ts` as a transformation of the
layout file's content.  The content inserted by the three steps does not
depend on the configuration, so neither does the transformation.
Step 1 splices the import block after the anchor line unless the
(single-quoted) guard text occurs; step 2 replaces the region from the
first `metaOpen` occurrence to the first subsequent `metaClose`
occurrence (the lazy regex) when both exist; step 3 substitutes the
structured-data block for the first children token unless the schema
call already occurs. -/
def updateLayout (c : List Char) : List Char :=
  let c1 := if containsSub c seoImportGuard then c
            else replaceFirstL c globalsAnchor seoImportRepl
  let c2 :=
    match splitAtSub? c1 metaOpen with
    | none => c1
    | some pq =>
      match splitAtSub? pq.2 metaClose with
      | none => c1
      | some mn => pq.1 ++ newMetadataStr ++ mn.2
  if containsSub c2 orgSchemaCall then c2
  else replaceFirstL c2 childrenToken childrenSeoRepl

/-- Observable outcome of the tail of `runSeoSetup` (from the summary
confirmation onward): which generated files are written, whether the
layout patch runs, and the process exit code. -/
structure SeoRunResult where
  writtenPaths : List (List Char)
  layoutPatched : Bool
  exitCode : Nat
deriving DecidableEq

/-- The paths written by a confirmed run, in write order. -/
def seoGeneratedPaths : List (List Char) :=
  ["src/lib/seo.config.ts".data, "src/lib/metadata-helper.ts".data,
   "src/lib/structured-data.tsx".data, "src/app/sitemap.ts".data,
   "src/app/robots.ts".data, "src/app/manifest.ts".data,
   "docs/SEO_GUIDE.md".data]

/-- The tail of `runSeoSetup`: after the summary, the confirmation answer
is lowercased and compared with `"n"`; on a match the function returns
before any file is generated or patched (the promise resolves, so the
process exits 0); otherwise every file is generated, the layout is
patched, and the process also exits 0. -/
def runSeoSetupAfterSummary (confirmAnswer : List Char) : SeoRunResult :=
  if confirmAnswer.map Char.toLower == "n".data then ⟨[], false, 0⟩
  else ⟨seoGeneratedPaths, true, 0⟩

/-- The minimal template object of the spec's acceptance test. -/
def candMinimal : Candidate :=
  ⟨some (JVal.jstr ("A".data)), some (JVal.jstr ("B".data)),
   some (JVal.jstr ("https://a.com".data)), some (JVal.jstr ("C".data)),
   some (JVal.jstr ("blog".data)), some (JVal.jarr []), none, none⟩

/-- A candidate with two simultaneous violations: `siteName` missing and
`businessType` outside the enumeration. -/
def candBoth : Candidate :=
  ⟨none, some (JVal.jstr ("B".data)), some (JVal.jstr ("https://a.com".data)),
   some (JVal.jstr ("C".data)), some (JVal.jstr ("invalid".data)),
   some (JVal.jarr []), none, none⟩

/-- A valid template whose `siteUrl` carries a trailing slash. -/
def candSlash : Candidate :=
  ⟨some (JVal.jstr ("A".data)), some (JVal.jstr ("B".data)),
   some (JVal.jstr ("https://a.com/".data)), some (JVal.jstr ("C".data)),
   some (JVal.jstr ("blog".data)), some (JVal.jarr []), none, none⟩

/-- A second valid template, used to exercise the verbatim-`siteUrl`
behaviour of `loadTemplateFile` at a concrete input. -/
def candTemplateW : Candidate :=
  ⟨some (JVal.jstr ("A".data)), some (JVal.jstr ("B".data)),
   some (JVal.jstr ("https://a.com".data)), some (JVal.jstr ("C".data)),
   some (JVal.jstr ("blog".data)), some (JVal.jarr []), none, none⟩

/-- The configuration `loadTemplateFile` produces from `candTemplateW`. -/
def cfgTemplateW : SeoConfig :=
  ⟨"A".data, "B".data, "https://a.com".data, "C".data,
   JVal.jstr ("en".data), "blog".data, JVal.jarr [], JVal.jobj []⟩

/-- Concrete prompt answers with a trailing slash on the URL. -/
def ansSlashW : Answers :=
  ⟨"S".data, "T".data, "https://a.com/".data, "A".data, [],
   ⟨0, by decide⟩, [], [], [], []⟩

/-- The minimal template with an arbitrary `keywords` array. -/
def mkKwCand (xs : List JVal) : Candidate :=
  ⟨some (JVal.jstr ("A".data)), some (JVal.jstr ("B".data)),
   some (JVal.jstr ("https://a.com".data)), some (JVal.jstr ("C".data)),
   some (JVal.jstr ("blog".data)), some (JVal.jarr xs), none, none⟩

/-! ### Helper lemmas about the string utilities -/

theorem startsWith_exists {h p : List Char} (hs : startsWith h p = true) :
    ∃ t, h = p ++ t := by
  induction p generalizing h with
  | nil => exact ⟨h, rfl⟩
  | cons b bs ih =>
    cases h with
    | nil => simp [startsWith] at hs
    | cons a as =>
      simp only [startsWith, Bool.and_eq_true, beq_iff_eq] at hs
      obtain ⟨t, ht⟩ := ih hs.2
      exact ⟨t, by simp [hs.1, ht]⟩

theorem startsWith_append (p t : List Char) : startsWith (p ++ t) p = true := by
  induction p with
  | nil => simp [startsWith]
  | cons a as ih => simp [startsWith, ih]

theorem drop_len_append (p t : List Char) : (p ++ t).drop p.length = t := by
  induction p with
  | nil => rfl
  | cons a as ih => simp only [List.cons_append, List.length_cons, List.drop_succ_cons]; exact ih

theorem containsSub_of_startsWith {x p : List Char} (hs : startsWith x p = true) :
    containsSub x p = true := by
  cases x with
  | nil => exact hs
  | cons c t => simp [containsSub, hs]

theorem containsSub_elim {h p : List Char} (hc : containsSub h p = true) :
    ∃ a b, h = a ++ p ++ b := by
  induction h with
  | nil =>
    cases p with
    | nil => exact ⟨[], [], rfl⟩
    | cons x xs => simp [containsSub, startsWith] at hc
  | cons c t ih =>
    simp only [containsSub, Bool.or_eq_true] at hc
    rcases hc with hs | hr
    · obtain ⟨u, hu⟩ := startsWith_exists hs
      exact ⟨[], u, by simp [hu]⟩
    · obtain ⟨a, b, hab⟩ := ih hr
      exact ⟨c :: a, b, by simp [hab]⟩

theorem containsSub_intro : ∀ (a p b : List Char), containsSub (a ++ p ++ b) p = true
  | [], p, b => containsSub_of_startsWith (startsWith_append p b)
  | c :: a, p, b => by
    simp only [List.cons_append, containsSub, Bool.or_eq_true]
    exact Or.inr (containsSub_intro a p b)

theorem containsSub_mid {m p : List Char} (a b : List Char)
    (hm : containsSub m p = true) : containsSub (a ++ m ++ b) p = true := by
  obtain ⟨x, y, hxy⟩ := containsSub_elim hm
  rw [hxy]
  have h2 : a ++ (x ++ p ++ y) ++ b = (a ++ x) ++ p ++ (y ++ b) := by
    simp [List.append_assoc]
  rw [h2]
  exact containsSub_intro (a ++ x) p (y ++ b)

theorem containsSub_trans {h m p : List Char} (h1 : containsSub h m = true)
    (h2 : containsSub m p = true) : containsSub h p = true := by
  obtain ⟨a, b, hab⟩ := containsSub_elim h1
  rw [hab]
  exact containsSub_mid a b h2

theorem replaceFirstL_of_not_contains : ∀ {h pat : List Char} (rep : List Char),
    containsSub h pat = false → replaceFirstL h pat rep = h := by
  intro h
  induction h with
  | nil =>
    intro pat rep hc
    simp only [containsSub] at hc
    simp [replaceFirstL, hc]
  | cons c t ih =>
    intro pat rep hc
    simp only [containsSub, Bool.or_eq_false_iff] at hc
    simp [replaceFirstL, hc.1, ih rep hc.2]

theorem replaceFirstL_contains {h pat : List Char} (rep : List Char)
    (hc : containsSub h pat = true) :
    ∃ a b, h = a ++ pat ++ b ∧ replaceFirstL h pat rep = a ++ rep ++ b := by
  induction h with
  | nil =>
    cases p : pat with
    | nil =>
      refine ⟨[], [], by simp, ?_⟩
      simp [replaceFirstL, startsWith]
    | cons x xs =>
      rw [p] at hc
      simp [containsSub, startsWith] at hc
  | cons c t ih =>
    cases hs : startsWith (c :: t) pat with
    | true =>
      obtain ⟨u, hu⟩ := startsWith_exists hs
      refine ⟨[], u, by simpa using hu, ?_⟩
      have hd : (c :: t).drop pat.length = u := by rw [hu, drop_len_append]
      simp [replaceFirstL, hs, hd]
    | false =>
      have hct : containsSub t pat = true := by
        simp only [containsSub, Bool.or_eq_true] at hc
        rcases hc with h1 | h2
        · rw [hs] at h1; cases h1
        · exact h2
      obtain ⟨a, b, h1, h2⟩ := ih hct
      exact ⟨c :: a, b, by simp [h1], by simp [replaceFirstL, hs, h2]⟩

theorem replaceFirstBy_of_no_match (m : List Char → Option (List Char))
    (rep : List Char) : ∀ l, hasMatchBy m l = false → replaceFirstBy m rep l = l
  | [], h => by
    simp only [hasMatchBy] at h
    cases hm : m [] with
    | some r => rw [hm] at h; simp at h
    | none => simp [replaceFirstBy, hm]
  | c :: t, h => by
    simp only [hasMatchBy, Bool.or_eq_false_iff] at h
    cases hm : m (c :: t) with
    | some r => rw [hm] at h; simp at h
    | none =>
      simp [replaceFirstBy, hm, replaceFirstBy_of_no_match m rep t h.2]

theorem replaceFirstBy_of_match (m : List Char → Option (List Char))
    (rep : List Char) : ∀ l, hasMatchBy m l = true →
    ∃ a b, replaceFirstBy m rep l = a ++ rep ++ b
  | [], h => by
    cases hm : m [] with
    | some r => exact ⟨[], r, by simp [replaceFirstBy, hm]⟩
    | none => rw [hasMatchBy, hm] at h; simp at h
  | c :: t, h => by
    cases hm : m (c :: t) with
    | some r => exact ⟨[], r, by simp [replaceFirstBy, hm]⟩
    | none =>
      have ht : hasMatchBy m t = true := by
        simp only [hasMatchBy, Bool.or_eq_true] at h
        rcases h with h1 | h2
        · rw [hm] at h1; simp at h1
        · exact h2
      obtain ⟨a, b, he⟩ := replaceFirstBy_of_match m rep t ht
      exact ⟨c :: a, b, by simp [replaceFirstBy, hm, he]⟩

theorem expandSub_of_no_dollar (matched pre post : List Char) :
    ∀ rep : List Char, dollarCh ∉ rep → expandSub matched pre post rep = rep
  | [], _ => rfl
  | [c], _ => by simp [expandSub]
  | a :: b :: t, h => by
    have ha : a ≠ dollarCh := by
      intro e
      exact h (by simp [e])
    have h2 : dollarCh ∉ b :: t := fun m => h (List.mem_cons_of_mem _ m)
    have hrec := expandSub_of_no_dollar matched pre post (b :: t) h2
    simp [expandSub, ha, hrec]

theorem jsReplGo_eq_lit (pat rep : List Char) (hd : dollarCh ∉ rep) :
    ∀ (f : Nat) (pre rest : List Char),
    jsReplGo pat rep f pre rest = litReplGo pat rep f rest := by
  intro f
  induction f with
  | zero => intro pre rest; rfl
  | succ f ih =>
    intro pre rest
    simp only [jsReplGo, litReplGo]
    cases pat with
    | nil =>
      cases rest with
      | nil => simp [expandSub_of_no_dollar _ _ _ rep hd]
      | cons c t => simp [expandSub_of_no_dollar _ _ _ rep hd, ih]
    | cons p ps =>
      cases hs : startsWith rest (p :: ps) with
      | true => simp [hs, expandSub_of_no_dollar _ _ _ rep hd, ih]
      | false =>
        cases rest with
        | nil => simp [hs]
        | cons c t => simp [hs, ih]

theorem jsReplaceAll_eq_lit (s pat rep : List Char) (hd : dollarCh ∉ rep) :
    jsReplaceAll s pat rep = litReplaceAll s pat rep :=
  jsReplGo_eq_lit pat rep hd (s.length + 1) [] s

theorem applyRules_eq_lit : ∀ (rules : List Rule) (c : List Char),
    (∀ r ∈ rules, dollarCh ∉ r.toStr) → applyRules c rules = litApplyRules c rules
  | [], _, _ => rfl
  | r :: rs, c, h => by
    have hr : dollarCh ∉ r.toStr := h r (List.mem_cons_self r rs)
    have hrs : ∀ x ∈ rs, dollarCh ∉ x.toStr := fun x hx => h x (List.mem_cons_of_mem _ hx)
    simp only [applyRules, litApplyRules]
    cases hc : containsSub c r.fromStr with
    | true =>
      simp [jsReplaceAll_eq_lit _ _ _ hr,
        applyRules_eq_lit rs (litReplaceAll c r.fromStr r.toStr) hrs]
    | false =>
      simp [applyRules_eq_lit rs c hrs]

theorem litApplyRules_not_modified : ∀ (rules : List Rule) (c : List Char),
    (litApplyRules c rules).2 = false → (litApplyRules c rules).1 = c
  | [], _, _ => rfl
  | r :: rs, c, h => by
    simp only [litApplyRules] at h ⊢
    cases hc : containsSub c r.fromStr with
    | true => rw [hc] at h; simp at h
    | false =>
      rw [hc] at h
      simp at h ⊢
      exact litApplyRules_not_modified rs c h

theorem applyRules_of_no_match : ∀ (rules : List Rule) (c : List Char),
    (∀ r ∈ rules, containsSub c r.fromStr = false) → applyRules c rules = (c, false)
  | [], _, _ => rfl
  | r :: rs, c, h => by
    have hr : containsSub c r.fromStr = false := h r (List.mem_cons_self r rs)
    have hrs : ∀ x ∈ rs, containsSub c x.fromStr = false :=
      fun x hx => h x (List.mem_cons_of_mem _ hx)
    simp [applyRules, hr, applyRules_of_no_match rs c hrs]

/-! ### Claim theorems -/

/-- C1 (counterexample): the claim "updateFile replaces every occurrence
of `from` with that rule's `to`" is false as stated: for the rule
`from = "a"`, `to = "$$"` on the file `"a"`, the code stores `"$"`
(JavaScript replacement-pattern expansion), not the literal `"$$"` that
verbatim replacement (`litApplyRules`) would produce. -/
theorem updateFile_dollar_counterexample :
    (updateFile (some ("a".data)) [⟨"a".data, "$$".data⟩]).content
      ≠ some (litApplyRules ("a".data) [⟨"a".data, "$$".data⟩]).1 := by decide

/-- C1 (amended): for every existing file and every rule list whose `to`
texts contain no `$`, `updateFile` replaces, for each rule whose `from`
occurs in the file's current text, every occurrence of `from` with the
rule's verbatim `to` (rules applied in order), the file is written back
exactly when at least one rule matched (content otherwise untouched), and
the returned boolean is exactly "was written". -/
theorem updateFile_literal_spec (c : List Char) (rules : List Rule)
    (h : ∀ r ∈ rules, dollarCh ∉ r.toStr) :
    updateFile (some c) rules
      = ⟨some (litApplyRules c rules).1, (litApplyRules c rules).2, false⟩ := by
  simp only [updateFile]
  rw [applyRules_eq_lit rules c h]
  cases h2 : (litApplyRules c rules).2 with
  | true => simp
  | false => simp [litApplyRules_not_modified rules c h2]

/-- C1 (witness): the amended theorem instantiated at the file `"a"` with
the single `$`-free rule `"a" → "b"`. -/
theorem updateFile_literal_spec_witness :
    updateFile (some ("a".data)) [⟨"a".data, "b".data⟩]
      = ⟨some (litApplyRules ("a".data) [⟨"a".data, "b".data⟩]).1,
         (litApplyRules ("a".data) [⟨"a".data, "b".data⟩]).2, false⟩ :=
  updateFile_literal_spec ("a".data) [⟨"a".data, "b".data⟩] (by decide)

/-- C2: `getReplacements` derives Title Case by splitting on runs of
hyphens, underscores and whitespace and capitalizing each word (rest
lowercased), and kebab-case by lowercasing, hyphenating whitespace runs
and deleting every character outside `[a-z0-9-]`; rule 7 pairs the
literal `"Next.js Template"` with the Title-Case form for every project
name, and the two concrete derivations of the claim hold. -/
theorem getReplacements_case_derivations :
    toTitleCase ("my cool app".data) = "My Cool App".data
    ∧ toKebabCase ("My Cool App!".data) = "my-cool-app".data
    ∧ (∀ p : List Char,
        (getReplacements p)[7]? = some ⟨"Next.js Template".data, toTitleCase p⟩)
    ∧ (getReplacements ("my cool app".data))[0]?
        = some ⟨"# Next.js Template".data, "# My Cool App".data⟩
    ∧ (getReplacements ("My Cool App!".data))[2]?
        = some ⟨"\"name\": \"next.js-template-basic\"".data,
                "\"name\": \"my-cool-app\"".data⟩ :=
  ⟨by decide, by decide, fun p => rfl, by decide, by decide⟩

/-- C3 (code bug): the SEO `updateLayout` is NOT idempotent.  On a layout
containing the anchor line `import "./globals.css";` the first run
splices the seo.config / structured-data imports; the guard for the
splice checks for the single-quoted text `from '@/lib/seo.config'`, which
the inserted double-quoted import never contains, so a second run splices
the import block again and the file changes. -/
theorem updateLayout_reimports_on_second_run :
    updateLayout (updateLayout ("import \"./globals.css\";".data))
      ≠ updateLayout ("import \"./globals.css\";".data) := by decide

/-- C4 (counterexample): a `SeoConfig` produced by `loadTemplateFile`
does NOT have its `siteUrl` normalized: the template value
`"https://a.com/"` is stored with its trailing slash. -/
theorem loadTemplateFile_keeps_trailing_slash :
    (loadTemplateFile (some candSlash)).map SeoConfig.siteUrl
        = some ("https://a.com/".data)
    ∧ ("https://a.com/".data) ≠ ("https://a.com".data) :=
  ⟨rfl, by decide⟩

/-- C4 (amended): only `collectSeoInfo` normalizes `siteUrl` by stripping
a trailing slash (with `"https://a.com/"` becoming `"https://a.com"`);
`loadTemplateFile` stores the template's `siteUrl` verbatim. -/
theorem siteUrl_normalization_split (pn : List Char) (a : Answers)
    (cand : Candidate) (cfg : SeoConfig)
    (h : loadTemplateFile (some cand) = some cfg) :
    (collectSeoInfo pn a).siteUrl = stripTrailingSlash a.siteUrl
    ∧ stripTrailingSlash ("https://a.com/".data) = "https://a.com".data
    ∧ cfg.siteUrl = getStr cand.siteUrl := by
  refine ⟨rfl, by decide, ?_⟩
  simp only [loadTemplateFile] at h
  by_cases hv : validateSeoConfig cand = true
  · rw [if_pos hv] at h
    rw [← Option.some.inj h]
  · rw [if_neg hv] at h
    cases h

/-- C4 (witness): the amended theorem instantiated at concrete prompt
answers with a trailing slash and at a concrete valid template. -/
theorem siteUrl_normalization_split_witness :
    (collectSeoInfo ("p".data) ansSlashW).siteUrl = stripTrailingSlash ansSlashW.siteUrl
    ∧ stripTrailingSlash ("https://a.com/".data) = "https://a.com".data
    ∧ cfgTemplateW.siteUrl = getStr candTemplateW.siteUrl :=
  siteUrl_normalization_split ("p".data) ansSlashW candTemplateW cfgTemplateW rfl

/-- C5: `validateSeoConfig` returns false exactly when at least one
violation is recorded, and reports every violation independently (a
missing `siteName` always contributes its message, and the concrete
candidate `candBoth` with two simultaneous violations receives both the
`siteName` message and the message naming all six business types); the
minimal object of the claim validates, and loading it defaults `locale`
to `"en"` and `social` to `{}`. -/
theorem validateSeoConfig_reports_all_violations :
    (∀ cand : Candidate, (validateSeoConfig cand = true ↔ validateErrors cand = []))
    ∧ (∀ cand : Candidate, reqStrOk cand.siteName = false →
        msgSiteName ∈ validateErrors cand ∧ validateSeoConfig cand = false)
    ∧ (msgSiteName ∈ validateErrors candBoth ∧ msgBizEnum ∈ validateErrors candBoth
        ∧ validateSeoConfig candBoth = false)
    ∧ validateSeoConfig candMinimal = true
    ∧ loadTemplateFile (some candMinimal)
        = some ⟨"A".data, "B".data, "https://a.com".data, "C".data,
                JVal.jstr ("en".data), "blog".data, JVal.jarr [], JVal.jobj []⟩ := by
  refine ⟨?_, ?_, ⟨by decide, by decide, by decide⟩, by decide, rfl⟩
  · intro cand
    unfold validateSeoConfig
    cases validateErrors cand <;> simp
  · intro cand hb
    constructor
    · unfold validateErrors
      rw [hb]
      simp
    · unfold validateSeoConfig validateErrors
      rw [hb]
      simp

/-- C5 (witness): the all-violations part applied to the concrete
candidate missing `siteName`. -/
theorem validateSeoConfig_reports_all_violations_witness :
    msgSiteName ∈ validateErrors candBoth ∧ validateSeoConfig candBoth = false :=
  validateSeoConfig_reports_all_violations.2.1 candBoth (by decide)

/-- C6 (counterexample): `updateFile` idempotence fails for arbitrary
rule lists: with the single rule `"b" → "bb"` on the file `"b"`, the
first application yields `"bb"` and the second `"bbbb"`. -/
theorem updateFile_not_idempotent_counterexample :
    (updateFile (updateFile (some ("b".data)) [⟨"b".data, "bb".data⟩]).content
        [⟨"b".data, "bb".data⟩]).content
      ≠ (updateFile (some ("b".data)) [⟨"b".data, "bb".data⟩]).content := by decide

/-- C6 (amended): the second application leaves the content unchanged
whenever no rule's `from` occurs in the content produced by the first
application (the situation the spec presumes for its own rule table on
template files). -/
theorem updateFile_second_run_noop (c c1 : List Char) (rules : List Rule)
    (h1 : (updateFile (some c) rules).content = some c1)
    (h2 : ∀ r ∈ rules, containsSub c1 r.fromStr = false) :
    (updateFile ((updateFile (some c) rules).content) rules).content
      = (updateFile (some c) rules).content := by
  rw [h1]
  simp [updateFile, applyRules_of_no_match rules c1 h2]

/-- C6 (witness): the amended theorem instantiated at the file `"b"` and
the rule `"b" → "c"`, whose first application removes every anchor. -/
theorem updateFile_second_run_noop_witness :
    (updateFile ((updateFile (some ("b".data)) [⟨"b".data, "c".data⟩]).content)
        [⟨"b".data, "c".data⟩]).content
      = (updateFile (some ("b".data)) [⟨"b".data, "c".data⟩]).content :=
  updateFile_second_run_noop ("b".data) ("c".data) [⟨"b".data, "c".data⟩]
    (by decide) (by decide)

/-- C7: the Hero UI layout update is idempotent: if the provider name
already occurs anywhere in the file, the update returns the content
unchanged (after an informational log), and for every content a second
invocation leaves the result of the first byte-identical. -/
theorem updateLayoutForHeroUI_idempotent :
    (∀ c, containsSub c heroProv = true → updateLayoutForHeroUI c = c)
    ∧ ∀ c, updateLayoutForHeroUI (updateLayoutForHeroUI c) = updateLayoutForHeroUI c := by
  have guard : ∀ c, containsSub c heroProv = true → updateLayoutForHeroUI c = c := by
    intro c h
    simp [updateLayoutForHeroUI, h]
  refine ⟨guard, fun c => ?_⟩
  cases hp : containsSub c heroProv with
  | true => rw [guard c hp, guard c hp]
  | false =>
    have hrun : updateLayoutForHeroUI c = heroStep3 (heroStep2 (heroStep1 c)) := by
      simp [updateLayoutForHeroUI, hp]
    rw [hrun]
    cases h3 : containsSub (heroStep3 (heroStep2 (heroStep1 c))) heroProv with
    | true => exact guard _ h3
    | false =>
      have hm : hasMatchBy childrenMatch (heroStep2 (heroStep1 c)) = false := by
        cases hmm : hasMatchBy childrenMatch (heroStep2 (heroStep1 c)) with
        | false => rfl
        | true =>
          obtain ⟨a, b, he⟩ := replaceFirstBy_of_match childrenMatch heroWrap _ hmm
          have hcc : containsSub (heroStep3 (heroStep2 (heroStep1 c))) heroProv
              = true := by
            unfold heroStep3
            rw [he]
            exact containsSub_mid a b (by decide)
          rw [hcc] at h3
          exact Bool.noConfusion h3
      have hc3eq : heroStep3 (heroStep2 (heroStep1 c)) = heroStep2 (heroStep1 c) := by
        unfold heroStep3
        exact replaceFirstBy_of_no_match _ _ _ hm
      have hstmt : containsSub (heroStep1 c) heroImportStmt = false := by
        cases hss : containsSub (heroStep1 c) heroImportStmt with
        | false => rfl
        | true =>
          have h2eq : heroStep2 (heroStep1 c) = heroStep1 c := by
            unfold heroStep2
            rw [hss]
            simp
          have hcc : containsSub (heroStep3 (heroStep2 (heroStep1 c))) heroProv
              = true := by
            rw [hc3eq, h2eq]
            exact containsSub_trans hss (by decide)
          rw [hcc] at h3
          exact Bool.noConfusion h3
      have hc2r : heroStep2 (heroStep1 c)
          = replaceFirstL (heroStep1 c) globalsAnchor heroImportRepl := by
        unfold heroStep2
        rw [hstmt]
        simp
      have hanch : containsSub (heroStep1 c) globalsAnchor = false := by
        cases haa : containsSub (heroStep1 c) globalsAnchor with
        | false => rfl
        | true =>
          obtain ⟨a, b, _, he⟩ := replaceFirstL_contains heroImportRepl haa
          have hcc : containsSub (heroStep3 (heroStep2 (heroStep1 c))) heroProv
              = true := by
            rw [hc3eq, hc2r, he]
            exact containsSub_mid a b (by decide)
          rw [hcc] at h3
          exact Bool.noConfusion h3
      have hc2eq : heroStep2 (heroStep1 c) = heroStep1 c := by
        rw [hc2r]
        exact replaceFirstL_of_not_contains _ hanch
      have hprov1 : containsSub (heroStep1 c) heroProv = false := by
        rw [hc3eq, hc2eq] at h3
        exact h3
      have huse : containsSub (heroStep1 c) useClientStr = true := by
        unfold heroStep1
        cases hu : containsSub c useClientStr with
        | true => simp [hu]
        | false =>
          have h0 : containsSub ([] ++ useClientPrefix ++ c) useClientStr = true :=
            containsSub_mid [] c (by decide)
          simpa using h0
      have hmc1 : hasMatchBy childrenMatch (heroStep1 c) = false := by
        rw [← hc2eq]
        exact hm
      rw [hc3eq, hc2eq]
      have s1 : heroStep1 (heroStep1 c) = heroStep1 c := by
        show (if containsSub (heroStep1 c) useClientStr = true then heroStep1 c
              else useClientPrefix ++ heroStep1 c) = heroStep1 c
        rw [huse]
        simp
      have s3 : heroStep3 (heroStep1 c) = heroStep1 c :=
        replaceFirstBy_of_no_match _ _ _ hmc1
      simp [updateLayoutForHeroUI, hprov1, s1, hc2eq, s3]

/-- C7 (witness): the guard applied to a file already containing the
provider name, and the idempotence part applied to a concrete content. -/
theorem updateLayoutForHeroUI_idempotent_witness :
    updateLayoutForHeroUI ("HeroUIProvider".data) = "HeroUIProvider".data
    ∧ updateLayoutForHeroUI (updateLayoutForHeroUI ("x".data))
        = updateLayoutForHeroUI ("x".data) :=
  ⟨updateLayoutForHeroUI_idempotent.1 ("HeroUIProvider".data) (by decide),
   updateLayoutForHeroUI_idempotent.2 ("x".data)⟩

/-- C8: on a nonexistent path (`fs.existsSync` false) `updateFile` logs
the warning and returns false for every rule list; the model is a total
function, reflecting that this path never throws. -/
theorem updateFile_missing_file (rules : List Rule) :
    updateFile none rules = ⟨none, false, true⟩ := rfl

/-- C9: answering `"n"` at the confirmation prompt aborts the SEO run
before anything is written — no generated file, no layout patch — and
the exit code is 0 for every answer (the settled promise never calls
`process.exit(1)`). -/
theorem runSeoSetup_cancel_aborts :
    runSeoSetupAfterSummary ("n".data) = ⟨[], false, 0⟩
    ∧ ∀ ans : List Char, (runSeoSetupAfterSummary ans).exitCode = 0 := by
  refine ⟨by decide, fun ans => ?_⟩
  unfold runSeoSetupAfterSummary
  split <;> rfl

/-- C10: `validateSeoConfig` checks only `Array.isArray` on `keywords`
(every candidate that differs from the minimal one only in the content of
its keywords array validates), and non-string elements such as `1` and
`null` survive `loadTemplateFile` unchanged and are rendered by
`JSON.stringify` into the generated `seo.config` text. -/
theorem validateSeoConfig_keywords_elements_unchecked :
    (∀ xs : List JVal, validateSeoConfig (mkKwCand xs) = true)
    ∧ (loadTemplateFile (some (mkKwCand [JVal.jnum 1, JVal.jnull]))).map
        SeoConfig.keywords = some (JVal.jarr [JVal.jnum 1, JVal.jnull])
    ∧ (loadTemplateFile (some (mkKwCand [JVal.jnum 1, JVal.jnull]))).map
        (fun cfg => containsSub (generateSeoConfig cfg) ("keywords: [1,null]".data))
        = some true :=
  ⟨fun _ => rfl, rfl, by decide⟩
